/-
Verification of the foss-vital acquisition pipeline: the TTL-bounded cache
(src/services/cache.ts), the rate limiter and its FIFO request queue
(src/utils/rate-limiter.ts), the project service composition
(src/services/project.ts), the refresh route (api/routes) and the scoring
engine, as shallow Lean embeddings.
-/
import Mathlib

/-! # Cache store (CacheService, src/services/cache.ts)

The JS `Map` preserves insertion order and keeps a key's position on
overwrite; we model the store as an association list in insertion order.
Timestamps and TTLs are milliseconds as `Nat`.
-/

/-- Cache configuration: `appConfig.cache` (maxSize, ttl). -/
structure CacheConfig where
  maxSize : Nat
  defaultTtl : Nat
  deriving DecidableEq, Repr

/-- `CacheItem<T>`: stored value, `timestamp` from `Date.now()` at set time, `ttl`. -/
structure CacheItem (α : Type) where
  data : α
  timestamp : Nat
  ttl : Nat
  deriving DecidableEq, Repr

/-- `Map.get`: find the entry for key `k` (first occurrence). -/
def lookupKey {α : Type} (k : String) : List (String × CacheItem α) → Option (CacheItem α)
  | [] => none
  | e :: rest => if e.1 = k then some e.2 else lookupKey k rest

/-- `Map.set`: overwrite in place when the key exists (keeping its insertion
position), otherwise append at the end. -/
def setEntry {α : Type} (k : String) (it : CacheItem α) :
    List (String × CacheItem α) → List (String × CacheItem α)
  | [] => [(k, it)]
  | e :: rest => if e.1 = k then (k, it) :: rest else e :: setEntry k it rest

/-- `Map.delete`: remove the entry for key `k` (first occurrence). -/
def deleteEntry {α : Type} (k : String) :
    List (String × CacheItem α) → List (String × CacheItem α)
  | [] => []
  | e :: rest => if e.1 = k then rest else e :: deleteEntry k rest

/-- The cache's own state: `this.cache`, entries in insertion order. -/
structure CacheState (α : Type) where
  entries : List (String × CacheItem α)
  deriving DecidableEq, Repr

/-- The effective TTL stored by `set`: the JS expression `ttl || this.defaultTtl`
(an absent argument and an explicit `0` both fall back to the default). -/
def effectiveTtl (cfg : CacheConfig) (ttl : Option Nat) : Nat :=
  match ttl with
  | some t => if t = 0 then cfg.defaultTtl else t
  | none => cfg.defaultTtl

/-- `CacheService.set` (cache.ts lines 27-43): when `size >= maxSize`, take the
first key of the map (oldest inserted) and delete it — but only under the JS
truthiness guard `if (firstKey)`: when that oldest key is the empty string
(falsy) the deletion is skipped.  Then store the item stamped `now`. -/
def cacheSet {α : Type} (cfg : CacheConfig) (c : CacheState α) (now : Nat)
    (k : String) (v : α) (ttl : Option Nat) : CacheState α :=
  let es :=
    if cfg.maxSize ≤ c.entries.length then
      match c.entries.head? with
      | some e => if e.1 = "" then c.entries else deleteEntry e.1 c.entries
      | none => c.entries
    else c.entries
  ⟨setEntry k ⟨v, now, effectiveTtl cfg ttl⟩ es⟩

/-- `CacheService.get` (cache.ts lines 48-62): absent key gives `null`; an item
with `now - timestamp > ttl` is deleted and `null` is returned; otherwise the
stored data is returned.  Returns the result and the post-state. -/
def cacheGet {α : Type} (c : CacheState α) (now : Nat) (k : String) :
    Option α × CacheState α :=
  match lookupKey k c.entries with
  | none => (none, c)
  | some it =>
    if it.ttl < now - it.timestamp then (none, ⟨deleteEntry k c.entries⟩)
    else (some it.data, c)

/-- `CacheService.delete` (cache.ts lines 67-69). -/
def cacheDelete {α : Type} (k : String) (c : CacheState α) : CacheState α :=
  ⟨deleteEntry k c.entries⟩

/-- `CacheService.cleanup` (cache.ts lines 92-99): drop every expired item. -/
def cacheCleanup {α : Type} (c : CacheState α) (now : Nat) : CacheState α :=
  ⟨c.entries.filter (fun e => !(decide (e.2.ttl < now - e.2.timestamp)))⟩

/-- `CacheService.clear` (cache.ts lines 74-76). -/
def cacheClear {α : Type} (_ : CacheState α) : CacheState α := ⟨[]⟩

/-- One cache operation, with the `Date.now()` value observed at its call. -/
inductive CacheOp (α : Type) where
  | set (k : String) (v : α) (ttl : Option Nat) (now : Nat)
  | get (k : String) (now : Nat)
  | del (k : String)
  | cleanup (now : Nat)
  | clear
  deriving DecidableEq, Repr

/-- Apply one operation to the cache state. -/
def applyOp {α : Type} (cfg : CacheConfig) (c : CacheState α) : CacheOp α → CacheState α
  | .set k v ttl now => cacheSet cfg c now k v ttl
  | .get k now => (cacheGet c now k).2
  | .del k => cacheDelete k c
  | .cleanup now => cacheCleanup c now
  | .clear => cacheClear c

/-- Run a sequence of operations from the empty cache (constructor state). -/
def runOps {α : Type} (cfg : CacheConfig) (ops : List (CacheOp α)) : CacheState α :=
  ops.foldl (applyOp cfg) ⟨[]⟩

theorem lookupKey_setEntry_self {α : Type} (k : String) (it : CacheItem α)
    (l : List (String × CacheItem α)) : lookupKey k (setEntry k it l) = some it := by
  induction l with
  | nil => simp [setEntry, lookupKey]
  | cons e rest ih =>
    by_cases h : e.1 = k
    · simp [setEntry, h, lookupKey]
    · simp [setEntry, h, lookupKey, ih]

theorem length_setEntry_le {α : Type} (k : String) (it : CacheItem α)
    (l : List (String × CacheItem α)) :
    (setEntry k it l).length ≤ l.length + 1 := by
  induction l with
  | nil => simp [setEntry]
  | cons e rest ih =>
    by_cases h : e.1 = k
    · simp [setEntry, h]
    · simp only [setEntry, if_neg h, List.length_cons]
      omega

theorem deleteEntry_sublist {α : Type} (k : String)
    (l : List (String × CacheItem α)) : (deleteEntry k l).Sublist l := by
  induction l with
  | nil => simp [deleteEntry]
  | cons e rest ih =>
    by_cases h : e.1 = k
    · simp only [deleteEntry, if_pos h]
      exact List.sublist_cons_self e rest
    · simp only [deleteEntry, if_neg h]
      exact ih.cons₂ e

theorem length_deleteEntry_le {α : Type} (k : String)
    (l : List (String × CacheItem α)) : (deleteEntry k l).length ≤ l.length :=
  (deleteEntry_sublist k l).length_le

theorem cacheSet_at_capacity {α : Type} (cfg : CacheConfig) (c : CacheState α)
    (now : Nat) (k : String) (v : α) (ttl : Option Nat)
    (hms : 1 ≤ cfg.maxSize) (hc : cfg.maxSize ≤ c.entries.length)
    (hne : ∀ e ∈ c.entries.head?, e.1 ≠ "") :
    (cacheSet cfg c now k v ttl).entries =
      setEntry k ⟨v, now, effectiveTtl cfg ttl⟩ c.entries.tail := by
  cases hE : c.entries with
  | nil => rw [hE] at hc; simp at hc; omega
  | cons e rest =>
    have hc2 : cfg.maxSize ≤ (e :: rest).length := hE ▸ hc
    have he : e.1 ≠ "" := by
      apply hne
      rw [hE]
      simp
    simp only [cacheSet, hE, if_pos hc2, List.head?_cons, List.tail_cons, if_neg he]
    simp [deleteEntry]

theorem length_cacheSet_le {α : Type} (cfg : CacheConfig) (c : CacheState α)
    (now : Nat) (k : String) (v : α) (ttl : Option Nat) (hms : 1 ≤ cfg.maxSize)
    (h : c.entries.length ≤ cfg.maxSize)
    (hne : ∀ e ∈ c.entries.head?, e.1 ≠ "") :
    (cacheSet cfg c now k v ttl).entries.length ≤ cfg.maxSize := by
  by_cases hc : cfg.maxSize ≤ c.entries.length
  · rw [cacheSet_at_capacity cfg c now k v ttl hms hc hne]
    have h1 := length_setEntry_le k (⟨v, now, effectiveTtl cfg ttl⟩ : CacheItem α) c.entries.tail
    have h2 : c.entries.tail.length = c.entries.length - 1 := by
      cases c.entries <;> simp
    have h3 : 1 ≤ c.entries.length := le_trans hms hc
    omega
  · simp only [cacheSet, if_neg hc]
    have := length_setEntry_le k (⟨v, now, effectiveTtl cfg ttl⟩ : CacheItem α) c.entries
    omega

theorem length_cacheGet_le {α : Type} (c : CacheState α) (now : Nat) (k : String) :
    (cacheGet c now k).2.entries.length ≤ c.entries.length := by
  unfold cacheGet
  cases hL : lookupKey k c.entries with
  | none => simp
  | some it =>
    by_cases hexp : it.ttl < now - it.timestamp
    · simp only [hexp, if_pos]
      exact length_deleteEntry_le k c.entries
    · simp [hexp]

/-- All keys stored in the cache are nonempty (truthy) strings — the invariant
under which the eviction guard `if (firstKey)` always fires. -/
def KeysNonempty {α : Type} (c : CacheState α) : Prop :=
  ∀ e ∈ c.entries, e.1 ≠ ""

/-- The operation's key, when it is a `set`, is a nonempty (truthy) string. -/
def setKeyNonempty {α : Type} : CacheOp α → Bool
  | CacheOp.set k _ _ _ => decide (k ≠ "")
  | _ => true

theorem mem_setEntry {α : Type} (k : String) (it : CacheItem α)
    (l : List (String × CacheItem α)) (e2 : String × CacheItem α)
    (h : e2 ∈ setEntry k it l) : e2 = (k, it) ∨ e2 ∈ l := by
  induction l with
  | nil =>
    simp [setEntry] at h
    exact Or.inl h
  | cons e rest ih =>
    by_cases hk : e.1 = k
    · simp only [setEntry, if_pos hk, List.mem_cons] at h
      rcases h with h | h
      · exact Or.inl h
      · exact Or.inr (List.mem_cons_of_mem e h)
    · simp only [setEntry, if_neg hk, List.mem_cons] at h
      rcases h with h | h
      · exact Or.inr (by simp [h])
      · rcases ih h with h2 | h2
        · exact Or.inl h2
        · exact Or.inr (List.mem_cons_of_mem e h2)

theorem cacheSet_entries_eq {α : Type} (cfg : CacheConfig) (c : CacheState α)
    (now : Nat) (k : String) (v : α) (ttl : Option Nat) :
    ∃ es, es.Sublist c.entries ∧
      (cacheSet cfg c now k v ttl).entries =
        setEntry k ⟨v, now, effectiveTtl cfg ttl⟩ es := by
  by_cases hc : cfg.maxSize ≤ c.entries.length
  · cases hE : c.entries.head? with
    | none =>
      exact ⟨c.entries, List.Sublist.refl _, by simp only [cacheSet, if_pos hc, hE]⟩
    | some e =>
      by_cases he : e.1 = ""
      · exact ⟨c.entries, List.Sublist.refl _,
          by simp only [cacheSet, if_pos hc, hE, if_pos he]⟩
      · exact ⟨deleteEntry e.1 c.entries, deleteEntry_sublist e.1 c.entries,
          by simp only [cacheSet, if_pos hc, hE, if_neg he]⟩
  · exact ⟨c.entries, List.Sublist.refl _, by simp only [cacheSet, if_neg hc]⟩

theorem mem_cacheSet {α : Type} (cfg : CacheConfig) (c : CacheState α)
    (now : Nat) (k : String) (v : α) (ttl : Option Nat)
    (e2 : String × CacheItem α) (h : e2 ∈ (cacheSet cfg c now k v ttl).entries) :
    e2 = (k, ⟨v, now, effectiveTtl cfg ttl⟩) ∨ e2 ∈ c.entries := by
  obtain ⟨es, hes, heq⟩ := cacheSet_entries_eq cfg c now k v ttl
  rw [heq] at h
  rcases mem_setEntry k _ es e2 h with h2 | h2
  · exact Or.inl h2
  · exact Or.inr (hes.subset h2)

theorem cacheGet_snd_sublist {α : Type} (c : CacheState α) (now : Nat)
    (k : String) : ((cacheGet c now k).2.entries).Sublist c.entries := by
  unfold cacheGet
  cases hL : lookupKey k c.entries with
  | none => simp
  | some it =>
    by_cases hexp : it.ttl < now - it.timestamp
    · simp only [hexp, if_pos]
      exact deleteEntry_sublist k c.entries
    · simp [hexp]

theorem keysNonempty_applyOp {α : Type} (cfg : CacheConfig) (c : CacheState α)
    (op : CacheOp α) (hk : KeysNonempty c) (hop : setKeyNonempty op = true) :
    KeysNonempty (applyOp cfg c op) := by
  cases op with
  | set k v ttl now =>
    have hkne : k ≠ "" := by simpa [setKeyNonempty] using hop
    intro e2 he2
    rcases mem_cacheSet cfg c now k v ttl e2 he2 with h | h
    · rw [h]
      exact hkne
    · exact hk e2 h
  | get k now =>
    intro e2 he2
    exact hk e2 ((cacheGet_snd_sublist c now k).subset he2)
  | del k =>
    intro e2 he2
    exact hk e2 ((deleteEntry_sublist k c.entries).subset he2)
  | cleanup now =>
    intro e2 he2
    exact hk e2 ((List.filter_sublist c.entries).subset he2)
  | clear =>
    intro e2 he2
    simp [applyOp, cacheClear] at he2

theorem applyOp_length {α : Type} (cfg : CacheConfig) (hms : 1 ≤ cfg.maxSize)
    (c : CacheState α) (op : CacheOp α) (h : c.entries.length ≤ cfg.maxSize)
    (hk : KeysNonempty c) :
    (applyOp cfg c op).entries.length ≤ cfg.maxSize := by
  cases op with
  | set k v ttl now =>
    apply length_cacheSet_le cfg c now k v ttl hms h
    intro e he
    exact hk e (List.mem_of_mem_head? he)
  | get k now => exact le_trans (length_cacheGet_le c now k) h
  | del k => exact le_trans (length_deleteEntry_le k c.entries) h
  | cleanup now => exact le_trans (List.length_filter_le _ c.entries) h
  | clear => simp [applyOp, cacheClear]

theorem runOps_length {α : Type} (cfg : CacheConfig) (hms : 1 ≤ cfg.maxSize)
    (ops : List (CacheOp α)) (hops : ∀ op ∈ ops, setKeyNonempty op = true) :
    (runOps cfg ops).entries.length ≤ cfg.maxSize := by
  have key : ∀ (l : List (CacheOp α)) (c : CacheState α),
      (∀ op ∈ l, setKeyNonempty op = true) → KeysNonempty c →
      c.entries.length ≤ cfg.maxSize →
      (l.foldl (applyOp cfg) c).entries.length ≤ cfg.maxSize := by
    intro l
    induction l with
    | nil => intro c _ _ h; simpa using h
    | cons op rest ih =>
      intro c hl hk h
      exact ih _ (fun o ho => hl o (List.mem_cons_of_mem op ho))
        (keysNonempty_applyOp cfg c op hk (hl op (List.mem_cons_self op rest)))
        (applyOp_length cfg hms c op h hk)
  exact key ops ⟨[]⟩ hops (by intro e he; simp at he) (by simp)

/-- C1 (counterexample): the expiry test in `CacheService.get` is the strict
`now - timestamp > ttl`, so at the exact instant `t = storedAt + ttl` the claim
says absent but the code still returns the value.  Here the item is stored at
time 0 with ttl 100 and read back at time 100 = 0 + 100. -/
theorem cache_get_at_exact_expiry_returns_value :
    (0 : Nat) + 100 ≤ 100 ∧
    (cacheGet (cacheSet ⟨1000, 300000⟩ (⟨[]⟩ : CacheState Nat) 0 "k" 42 (some 100))
      100 "k").1 = some 42 :=
  ⟨Nat.le_refl _, rfl⟩

/-- C1 (amended): for a nonzero explicit ttl (a zero ttl falls back to the
default, by `ttl || this.defaultTtl`), after `set(k, v, ttl)` at time `now`,
`get(k)` at time `t` returns `v` whenever `t ≤ now + ttl`, and for `t > now + ttl`
returns absent and deletes the entry from the store as a side effect. -/
theorem cache_set_get_ttl {α : Type} (cfg : CacheConfig) (c : CacheState α)
    (now : Nat) (k : String) (v : α) (ttl t : Nat) (httl : ttl ≠ 0) :
    (t ≤ now + ttl →
       (cacheGet (cacheSet cfg c now k v (some ttl)) t k).1 = some v) ∧
    (now + ttl < t →
       (cacheGet (cacheSet cfg c now k v (some ttl)) t k).1 = none ∧
       (cacheGet (cacheSet cfg c now k v (some ttl)) t k).2.entries =
         deleteEntry k (cacheSet cfg c now k v (some ttl)).entries) := by
  have heff : effectiveTtl cfg (some ttl) = ttl := by simp [effectiveTtl, httl]
  have hl : lookupKey k (cacheSet cfg c now k v (some ttl)).entries =
      some ⟨v, now, ttl⟩ := by
    obtain ⟨es, _, heq⟩ := cacheSet_entries_eq cfg c now k v (some ttl)
    rw [heq, heff]
    exact lookupKey_setEntry_self k _ _
  constructor
  · intro ht
    have hfresh : ¬ ((⟨v, now, ttl⟩ : CacheItem α).ttl <
        t - (⟨v, now, ttl⟩ : CacheItem α).timestamp) := by
      simp only []
      omega
    simp [cacheGet, hl, hfresh]
  · intro ht
    have hexp : (⟨v, now, ttl⟩ : CacheItem α).ttl <
        t - (⟨v, now, ttl⟩ : CacheItem α).timestamp := by
      simp only []
      omega
    simp [cacheGet, hl, hexp]

/-- C1 (witness): concrete run of the amended theorem — value stored at time 0
with ttl 100 is still returned at time 50 and is gone, with its entry deleted,
at time 101. -/
theorem cache_set_get_ttl_witness :
    (cacheGet (cacheSet ⟨1000, 300000⟩ (⟨[]⟩ : CacheState Nat) 0 "k" 42 (some 100))
      50 "k").1 = some 42 ∧
    (cacheGet (cacheSet ⟨1000, 300000⟩ (⟨[]⟩ : CacheState Nat) 0 "k" 42 (some 100))
      101 "k").1 = none :=
  ⟨(cache_set_get_ttl ⟨1000, 300000⟩ ⟨[]⟩ 0 "k" 42 100 50 (by decide)).1 (by decide),
   ((cache_set_get_ttl ⟨1000, 300000⟩ ⟨[]⟩ 0 "k" 42 100 101 (by decide)).2 (by decide)).1⟩

/-- C2 (counterexample): the eviction in `CacheService.set` sits under the JS
truthiness guard `if (firstKey)` (cache.ts line 31), so when the oldest key is
the empty string (falsy) nothing is evicted and the store grows past the bound:
with maxSize 1, `set(""); set("x")` leaves 2 entries — the claimed size bound
and the claimed one-eviction-per-insert both fail. -/
theorem cache_overflow_with_empty_string_key :
    (runOps ⟨1, 5⟩ [CacheOp.set "" (1 : Nat) none 0,
       CacheOp.set "x" 2 none 0]).entries.length = 2 ∧
    ¬ ((runOps ⟨1, 5⟩ [CacheOp.set "" (1 : Nat) none 0,
       CacheOp.set "x" 2 none 0]).entries.length ≤ 1) := by
  constructor
  · rfl
  · decide

/-- C2 (amended): with a positive configured maximum, and restricted to
nonempty (truthy) cache keys — every key the service's key builders produce is
nonempty, while an empty key defeats the `if (firstKey)` eviction guard —
(a) no operation sequence run from the empty cache ever leaves more than
`maxSize` entries, and (b) a `set` performed while `size ≥ maxSize`, with the
oldest-inserted key nonempty, evicts exactly that oldest entry: the surviving
old entries are precisely the tail of the insertion-order list, the head
(oldest) being dropped, before the new binding is stored. -/
theorem cache_size_bound_fifo_eviction_nonempty_keys (cfg : CacheConfig)
    (hms : 1 ≤ cfg.maxSize) :
    (∀ (α : Type) (ops : List (CacheOp α)),
       (∀ op ∈ ops, setKeyNonempty op = true) →
       (runOps cfg ops).entries.length ≤ cfg.maxSize) ∧
    (∀ (α : Type) (c : CacheState α) (now : Nat) (k : String) (v : α) (ttl : Option Nat),
       cfg.maxSize ≤ c.entries.length →
       (∀ e ∈ c.entries.head?, e.1 ≠ "") →
       (cacheSet cfg c now k v ttl).entries =
         setEntry k ⟨v, now, effectiveTtl cfg ttl⟩ c.entries.tail) :=
  ⟨fun _ ops hops => runOps_length cfg hms ops hops,
   fun _ c now k v ttl hc hne => cacheSet_at_capacity cfg c now k v ttl hms hc hne⟩

/-- C2 (witness): with maxSize 2, three inserts under nonempty keys leave at
most 2 entries, and a set on the full two-entry cache `[a, b]` keeps only the
tail `[b]` plus the new binding. -/
theorem cache_size_bound_fifo_eviction_nonempty_keys_witness :
    (runOps ⟨2, 5⟩ [CacheOp.set "a" (1 : Nat) none 0, CacheOp.set "b" 2 none 0,
       CacheOp.set "c" 3 none 1]).entries.length ≤ 2 ∧
    (cacheSet ⟨2, 5⟩ (⟨[("a", ⟨1, 0, 5⟩), ("b", ⟨2, 0, 5⟩)]⟩ : CacheState Nat)
       3 "c" 7 none).entries =
      setEntry "c" ⟨7, 3, 5⟩ [("b", ⟨2, 0, 5⟩)] :=
  ⟨(cache_size_bound_fifo_eviction_nonempty_keys ⟨2, 5⟩ (by decide)).1 Nat _
     (by decide),
   (cache_size_bound_fifo_eviction_nonempty_keys ⟨2, 5⟩ (by decide)).2 Nat
     ⟨[("a", ⟨1, 0, 5⟩), ("b", ⟨2, 0, 5⟩)]⟩ 3 "c" 7 none (by decide)
     (by intro e he; simp at he; subst he; decide)⟩

/-! # Rate limiter (RateLimiter, src/utils/rate-limiter.ts)

Times are epoch milliseconds; counters are integers (the JS `remaining--` can
drive the counter below zero, so `Int` rather than `Nat`).
-/

/-- `RateLimitState` (rate-limiter.ts lines 8-13). -/
structure RateLimitState where
  remaining : Int
  reset : Int
  limit : Int
  used : Int
  deriving DecidableEq, Repr

/-- The reset branch at the top of `canMakeRequest` (lines 54-59): once
`Date.now() > reset`, restore `remaining = limit`, `used = 0` and push the
reset time one hour out. -/
def selfHealState (st : RateLimitState) (now : Int) : RateLimitState :=
  if st.reset < now then
    { st with remaining := st.limit, used := 0, reset := now + 3600000 }
  else st

/-- `RateLimiter.canMakeRequest` (lines 53-62): self-heal, then admit iff
`remaining > 0`.  Returns the mutated state together with the answer. -/
def canMakeRequest (st : RateLimitState) (now : Int) : RateLimitState × Bool :=
  let st1 := selfHealState st now
  (st1, decide (0 < st1.remaining))

/-- `RateLimiter.updateFromHeaders` (lines 34-48): each field is overwritten
only when the corresponding header is present; the reset header is seconds and
is multiplied by 1000. -/
def updateFromHeaders (st : RateLimitState)
    (remainingHdr resetHdr limitHdr usedHdr : Option Int) : RateLimitState :=
  let st1 := match remainingHdr with
    | some r => { st with remaining := r }
    | none => st
  let st2 := match resetHdr with
    | some r => { st1 with reset := r * 1000 }
    | none => st1
  let st3 := match limitHdr with
    | some l => { st2 with limit := l }
    | none => st2
  match usedHdr with
  | some u => { st3 with used := u }
  | none => st3

/-- The quota-state effect of one task run by `executeRequest` (lines 82-98):
`waitIfNecessary` calls `canMakeRequest`, whose reset branch is the only state
change before the callback runs (`now` is the clock at that check); then on a
successful callback `remaining--` and `used++`, while a throwing callback jumps
to the `catch` and skips both. -/
def executeRequestEffect (st : RateLimitState) (now : Int) (ok : Bool) :
    RateLimitState :=
  let st1 := selfHealState st now
  if ok then { st1 with remaining := st1.remaining - 1, used := st1.used + 1 }
  else st1

/-- `RateLimiter.isNearLimit` (lines 136-139): `(limit - remaining) / limit > 0.8`. -/
def isNearLimit (st : RateLimitState) : Bool :=
  decide ((4 : ℚ) / 5 < ((st.limit - st.remaining : Int) : ℚ) / ((st.limit : Int) : ℚ))

/-- `RateLimiter.getRecommendedCacheTTL` (lines 144-152), in milliseconds. -/
def getRecommendedCacheTTL (st : RateLimitState) : Nat :=
  if isNearLimit st then 30 * 60 * 1000
  else if st.remaining < 100 then 20 * 60 * 1000
  else 15 * 60 * 1000

/-- C3 (counterexample): after `updateFromHeaders` reports 0 remaining with
reset second 1 (epoch millisecond T = 1000), the claim says `canAdmit` is true
once the clock reaches T; but `canMakeRequest` resets only on the strict
`Date.now() > reset`, so at `now = 1000 = T` it still answers false. -/
theorem canMakeRequest_at_reset_instant_is_false :
    (updateFromHeaders ⟨5, 0, 60, 0⟩ (some 0) (some 1) none none).reset = 1000 ∧
    (canMakeRequest (updateFromHeaders ⟨5, 0, 60, 0⟩ (some 0) (some 1) none none)
      1000).2 = false := by
  constructor
  · rfl
  · decide

/-- C3 (amended): after `updateFromHeaders({remaining: 0, resetAt: T})` (reset
header `r` seconds, `T = 1000·r`), `canMakeRequest` answers false at every time
`now ≤ T`; at any time strictly past `T` it first self-heals the state to
`remaining = limit, used = 0, reset = now + 3600000` and then answers true
provided the limit is positive (`remaining` then equals `limit`). -/
theorem quota_admission_around_reset (st : RateLimitState) (r now : Int) :
    (now ≤ r * 1000 →
       (canMakeRequest (updateFromHeaders st (some 0) (some r) none none) now).2
         = false) ∧
    (r * 1000 < now →
       (canMakeRequest (updateFromHeaders st (some 0) (some r) none none) now).1
         = ⟨st.limit, now + 3600000, st.limit, 0⟩ ∧
       ((canMakeRequest (updateFromHeaders st (some 0) (some r) none none) now).2
         = true ↔ 0 < st.limit)) := by
  have hupd : updateFromHeaders st (some 0) (some r) none none
      = ⟨0, r * 1000, st.limit, st.used⟩ := rfl
  rw [hupd]
  constructor
  · intro h
    have hnoheal : ¬ ((⟨0, r * 1000, st.limit, st.used⟩ : RateLimitState).reset < now) := by
      simp only []
      omega
    simp [canMakeRequest, selfHealState, hnoheal]
  · intro h
    have hheal : (⟨0, r * 1000, st.limit, st.used⟩ : RateLimitState).reset < now := by
      simp only []
      omega
    simp [canMakeRequest, selfHealState, hheal]

/-- C3 (witness): limit 60, reset second 1: admission is denied at `now = 500`
and granted, with the state healed to `remaining = limit = 60`, at `now = 1001`. -/
theorem quota_admission_around_reset_witness :
    (canMakeRequest (updateFromHeaders ⟨5, 0, 60, 7⟩ (some 0) (some 1) none none)
      500).2 = false ∧
    (canMakeRequest (updateFromHeaders ⟨5, 0, 60, 7⟩ (some 0) (some 1) none none)
      1001).1 = ⟨60, 3601001, 60, 0⟩ ∧
    (canMakeRequest (updateFromHeaders ⟨5, 0, 60, 7⟩ (some 0) (some 1) none none)
      1001).2 = true :=
  by
  refine ⟨(quota_admission_around_reset ⟨5, 0, 60, 7⟩ 1 500).1 (by decide), ?_, ?_⟩
  · have h := ((quota_admission_around_reset ⟨5, 0, 60, 7⟩ 1 1001).2 (by decide)).1
    simpa using h
  · exact (((quota_admission_around_reset ⟨5, 0, 60, 7⟩ 1 1001).2 (by decide)).2).mpr
      (by decide)

/-- C10 (counterexample): a task whose callback throws is claimed to leave the
rate-limiter state untouched, but when the task runs after the reset time the
`canMakeRequest` call inside `waitIfNecessary` has already healed the state:
from `{remaining 0, reset 100, limit 60, used 60}` a failing task run at time
200 leaves `{remaining 60, reset 3600200, limit 60, used 0}`. -/
theorem executeRequest_failing_task_can_mutate_state :
    executeRequestEffect ⟨0, 100, 60, 60⟩ 200 false = ⟨60, 3600200, 60, 0⟩ ∧
    executeRequestEffect ⟨0, 100, 60, 60⟩ 200 false ≠ ⟨0, 100, 60, 60⟩ := by
  constructor
  · decide
  · decide

/-- C10 (amended): provided the quota window has not elapsed at the time of the
task's admission check (`now ≤ reset`, so the self-heal branch does not fire),
a successful task decrements `remaining` by exactly one and increments `used`
by exactly one leaving `limit` and `reset` unchanged, and a task whose callback
throws leaves the whole state unchanged. -/
theorem executeRequest_quota_frame (st : RateLimitState) (now : Int)
    (h : now ≤ st.reset) :
    executeRequestEffect st now true
      = { st with remaining := st.remaining - 1, used := st.used + 1 } ∧
    executeRequestEffect st now false = st := by
  have hnoheal : ¬ (st.reset < now) := not_lt.mpr h
  constructor
  · simp [executeRequestEffect, selfHealState, hnoheal]
  · simp [executeRequestEffect, selfHealState, hnoheal]

/-- C10 (witness): at `{remaining 5, reset 1000, limit 60, used 2}` and time
500 a successful task yields `{remaining 4, used 3}` with the other fields
unchanged, and a failing task changes nothing. -/
theorem executeRequest_quota_frame_witness :
    executeRequestEffect ⟨5, 1000, 60, 2⟩ 500 true = ⟨4, 1000, 60, 3⟩ ∧
    executeRequestEffect ⟨5, 1000, 60, 2⟩ 500 false = ⟨5, 1000, 60, 2⟩ := by
  have h := executeRequest_quota_frame ⟨5, 1000, 60, 2⟩ 500 (by decide)
  refine ⟨?_, h.2⟩
  rw [h.1]
  decide

theorem isNearLimit_antitone (r1 r2 x l u : Int) (hl : 0 < l) (h : r1 ≤ r2)
    (hnear : isNearLimit ⟨r2, x, l, u⟩ = true) : isNearLimit ⟨r1, x, l, u⟩ = true := by
  simp only [isNearLimit, decide_eq_true_eq] at hnear ⊢
  have hql : (0 : ℚ) < (l : ℚ) := by exact_mod_cast hl
  have hle : ((l - r2 : Int) : ℚ) ≤ ((l - r1 : Int) : ℚ) := by
    have : (l - r2 : Int) ≤ (l - r1 : Int) := by omega
    exact_mod_cast this
  calc (4 : ℚ) / 5 < ((l - r2 : Int) : ℚ) / (l : ℚ) := hnear
    _ ≤ ((l - r1 : Int) : ℚ) / (l : ℚ) := by gcongr

/-- C8 (counterexample): the claim says a smaller remaining quota yields a
smaller-or-equal recommended TTL, but the code does the opposite: with limit
5000, remaining 0 recommends 30 minutes while remaining 5000 recommends only
15 minutes. -/
theorem recommended_ttl_grows_as_quota_shrinks :
    getRecommendedCacheTTL ⟨0, 0, 5000, 0⟩ = 1800000 ∧
    getRecommendedCacheTTL ⟨5000, 0, 5000, 0⟩ = 900000 ∧
    ¬ (getRecommendedCacheTTL ⟨0, 0, 5000, 0⟩
        ≤ getRecommendedCacheTTL ⟨5000, 0, 5000, 0⟩) := by
  have h1 : isNearLimit ⟨0, 0, 5000, 0⟩ = true := by
    simp only [isNearLimit, decide_eq_true_eq]
    norm_num
  have h2 : isNearLimit ⟨5000, 0, 5000, 0⟩ = false := by
    simp only [isNearLimit, decide_eq_false_iff_not]
    norm_num
  have e1 : getRecommendedCacheTTL ⟨0, 0, 5000, 0⟩ = 1800000 := by
    simp [getRecommendedCacheTTL, h1]
  have e2 : getRecommendedCacheTTL ⟨5000, 0, 5000, 0⟩ = 900000 := by
    simp [getRecommendedCacheTTL, h2]
  exact ⟨e1, e2, by rw [e1, e2]; norm_num⟩

/-- C8 (amended): `getRecommendedCacheTTL` is antitone in the remaining quota:
for two states that differ only in `remaining` (positive limit), the state with
the smaller remaining count recommends a larger-or-equal cache TTL — scarce
quota translates into longer memoization. -/
theorem recommended_ttl_antitone (r1 r2 x l u : Int) (hl : 0 < l) (h : r1 ≤ r2) :
    getRecommendedCacheTTL ⟨r2, x, l, u⟩ ≤ getRecommendedCacheTTL ⟨r1, x, l, u⟩ := by
  unfold getRecommendedCacheTTL
  by_cases h2 : isNearLimit ⟨r2, x, l, u⟩ = true
  · rw [if_pos h2, if_pos (isNearLimit_antitone r1 r2 x l u hl h h2)]
  · rw [if_neg h2]
    by_cases h1 : isNearLimit ⟨r1, x, l, u⟩ = true
    · rw [if_pos h1]
      split <;> norm_num
    · rw [if_neg h1]
      by_cases hr2 : r2 < 100
      · have hr1 : r1 < 100 := by omega
        simp [hr1, hr2]
      · by_cases hr1 : r1 < 100
        · simp [hr1, hr2]
        · simp [hr1, hr2]

/-- C8 (witness): with limit 5000, remaining 200 recommends no more than
remaining 50 does. -/
theorem recommended_ttl_antitone_witness :
    getRecommendedCacheTTL ⟨200, 0, 5000, 0⟩ ≤ getRecommendedCacheTTL ⟨50, 0, 5000, 0⟩ :=
  recommended_ttl_antitone 50 200 0 5000 0 (by decide) (by decide)

/-! # Request queue (RateLimiter.executeRequest / processQueue)

`executeRequest` pushes a closure onto `requestQueue` and calls `processQueue`;
`processQueue` returns at once when `isProcessingQueue` is set, otherwise sets
it and drains the queue with `shift()`, awaiting each task fully before taking
the next.  JS is single-threaded and the check-and-set of the flag is
synchronous, so the observable behaviour is the small-step system below: a
`submit` can interleave anywhere, but only one drain worker exists, and it runs
one task at a time from the head of the queue. -/

/-- A trace event: a task starts executing / finishes (resolves or rejects). -/
inductive QEvent where
  | start (i : Nat)
  | finish (i : Nat)
  deriving DecidableEq, Repr

/-- The rate limiter's queue-related fields plus ghost history: `queue` is
`this.requestQueue` (task ids), `draining` is `isProcessingQueue`, `running`
is the task currently awaited by the drain loop, `trace` the events so far,
`submitted` the ids ever pushed, in submission order. -/
structure QueueState where
  queue : List Nat
  draining : Bool
  running : Option Nat
  trace : List QEvent
  submitted : List Nat
  deriving DecidableEq, Repr

/-- State before any `executeRequest` call. -/
def qInit : QueueState := ⟨[], false, none, [], []⟩

/-- One observable step of the queue system.
`submit`: lines 83-96, push at the back, then `processQueue` either starts the
(sole) drain worker or returns because one is active — either way the flag is
set afterwards.  `startTask`: lines 110-113, the drain worker shifts the head
off the queue and begins awaiting it, only when no task is being awaited.
`finishTask`: the awaited task settles.  `stopDrain`: lines 110 and 120, with
the queue empty the loop exits and clears the flag. -/
inductive QStep : QueueState → QueueState → Prop where
  | submit (s : QueueState) (i : Nat) :
      QStep s ⟨s.queue ++ [i], true, s.running, s.trace, s.submitted ++ [i]⟩
  | startTask (s : QueueState) (i : Nat) (rest : List Nat)
      (hq : s.queue = i :: rest) (hr : s.running = none) (hd : s.draining = true) :
      QStep s ⟨rest, true, some i, s.trace ++ [QEvent.start i], s.submitted⟩
  | finishTask (s : QueueState) (i : Nat) (hr : s.running = some i) :
      QStep s ⟨s.queue, s.draining, none, s.trace ++ [QEvent.finish i], s.submitted⟩
  | stopDrain (s : QueueState) (hq : s.queue = []) (hr : s.running = none)
      (hd : s.draining = true) :
      QStep s ⟨[], false, none, s.trace, s.submitted⟩

/-- States the queue system can reach from the initial state. -/
def QReachable (s : QueueState) : Prop := Relation.ReflTransGen QStep qInit s

/-- Ids of the tasks that have started, in start order. -/
def startedIds : List QEvent → List Nat
  | [] => []
  | QEvent.start i :: r => i :: startedIds r
  | QEvent.finish _ :: r => startedIds r

/-- Number of start events. -/
def countStart : List QEvent → Nat
  | [] => 0
  | QEvent.start _ :: r => countStart r + 1
  | QEvent.finish _ :: r => countStart r

/-- Number of finish events. -/
def countFinish : List QEvent → Nat
  | [] => 0
  | QEvent.start _ :: r => countFinish r
  | QEvent.finish _ :: r => countFinish r + 1

/-- Serial-trace checker: parse one event given the task currently running. -/
def stepEv : Option Nat → QEvent → Option (Option Nat)
  | none, QEvent.start i => some (some i)
  | some i, QEvent.finish j => if i = j then some none else none
  | none, QEvent.finish _ => none
  | some _, QEvent.start _ => none

/-- Serial-trace checker: parse a trace; `none` means the trace interleaves two
tasks (or finishes a task that is not the running one). -/
def traceRunFrom (r : Option Nat) : List QEvent → Option (Option Nat)
  | [] => some r
  | e :: rest =>
    match stepEv r e with
    | some r2 => traceRunFrom r2 rest
    | none => none

/-- 1 if a task is mid-execution, else 0. -/
def runCount : Option Nat → Nat
  | none => 0
  | some _ => 1

theorem startedIds_append (t1 t2 : List QEvent) :
    startedIds (t1 ++ t2) = startedIds t1 ++ startedIds t2 := by
  induction t1 with
  | nil => simp [startedIds]
  | cons e r ih => cases e <;> simp [startedIds, ih]

theorem traceRunFrom_append (r : Option Nat) (t1 t2 : List QEvent) :
    traceRunFrom r (t1 ++ t2) =
      match traceRunFrom r t1 with
      | some r2 => traceRunFrom r2 t2
      | none => none := by
  induction t1 generalizing r with
  | nil => simp [traceRunFrom]
  | cons e rest ih =>
    cases hs : stepEv r e with
    | none => simp [traceRunFrom, hs]
    | some r2 => simp [traceRunFrom, hs, ih]

theorem traceRunFrom_counts (t1 : List QEvent) (r r2 : Option Nat)
    (h : traceRunFrom r t1 = some r2) :
    countStart t1 + runCount r = countFinish t1 + runCount r2 := by
  induction t1 generalizing r with
  | nil =>
    simp [traceRunFrom] at h
    rw [h]
    simp [countStart, countFinish]
  | cons e rest ih =>
    cases e with
    | start i =>
      cases r with
      | none =>
        simp [traceRunFrom, stepEv] at h
        have := ih (some i) h
        simp [countStart, countFinish, runCount] at this ⊢
        omega
      | some j => simp [traceRunFrom, stepEv] at h
    | finish i =>
      cases r with
      | none => simp [traceRunFrom, stepEv] at h
      | some j =>
        by_cases hij : j = i
        · subst hij
          simp [traceRunFrom, stepEv] at h
          have := ih none h
          simp [countStart, countFinish, runCount] at this ⊢
          omega
        · simp [traceRunFrom, stepEv, hij] at h

theorem traceRunFrom_prefix (t1 t2 : List QEvent) (r r2 : Option Nat)
    (h : traceRunFrom r (t1 ++ t2) = some r2) :
    ∃ rm, traceRunFrom r t1 = some rm := by
  rw [traceRunFrom_append] at h
  cases hm : traceRunFrom r t1 with
  | none => rw [hm] at h; simp at h
  | some rm => exact ⟨rm, rfl⟩

/-- The inductive invariant of the queue system: the trace parses serially and
ends with the currently running task, and the started ids followed by the
pending queue are exactly the submitted ids in order. -/
def QInv (s : QueueState) : Prop :=
  traceRunFrom none s.trace = some s.running ∧
  startedIds s.trace ++ s.queue = s.submitted

theorem qstep_inv {s s2 : QueueState} (hstep : QStep s s2) (h : QInv s) : QInv s2 := by
  cases hstep with
  | submit i =>
    refine ⟨h.1, ?_⟩
    show startedIds s.trace ++ (s.queue ++ [i]) = s.submitted ++ [i]
    rw [← List.append_assoc, h.2]
  | startTask i rest hq hr hd =>
    constructor
    · show traceRunFrom none (s.trace ++ [QEvent.start i]) = some (some i)
      rw [traceRunFrom_append, h.1, hr]
      simp [traceRunFrom, stepEv]
    · show startedIds (s.trace ++ [QEvent.start i]) ++ rest = s.submitted
      rw [startedIds_append]
      have h2 := h.2
      rw [hq] at h2
      simp [startedIds]
      exact h2
  | finishTask i hr =>
    constructor
    · show traceRunFrom none (s.trace ++ [QEvent.finish i]) = some none
      rw [traceRunFrom_append, h.1, hr]
      simp [traceRunFrom, stepEv]
    · show startedIds (s.trace ++ [QEvent.finish i]) ++ s.queue = s.submitted
      rw [startedIds_append]
      simpa [startedIds] using h.2
  | stopDrain hq hr hd =>
    constructor
    · show traceRunFrom none s.trace = some none
      rw [h.1, hr]
    · show startedIds s.trace ++ [] = s.submitted
      rw [List.append_nil]
      simpa [hq] using h.2

theorem qreachable_inv (s : QueueState) (h : QReachable s) : QInv s := by
  induction h with
  | refl => exact ⟨rfl, rfl⟩
  | tail _ hstep ih => exact qstep_inv hstep ih

/-- C4 (confirmed): in every reachable state of the queue system, (a) the ids
of the tasks that have started, in start order, followed by the still-pending
queue, are exactly the submitted ids in submission order — tasks execute
strictly FIFO — and (b) in every prefix of the trace the number of starts
exceeds the number of finishes by at most one: at no point are two tasks
running concurrently; a task starts only after the previous one finished. -/
theorem queue_fifo_serial (s : QueueState) (h : QReachable s) :
    startedIds s.trace ++ s.queue = s.submitted ∧
    (∀ t1 t2, s.trace = t1 ++ t2 → countStart t1 ≤ countFinish t1 + 1) := by
  have hinv := qreachable_inv s h
  refine ⟨hinv.2, ?_⟩
  intro t1 t2 ht
  have h1 : traceRunFrom none (t1 ++ t2) = some s.running := by
    rw [← ht]; exact hinv.1
  obtain ⟨rm, hrm⟩ := traceRunFrom_prefix t1 t2 none s.running h1
  have hc := traceRunFrom_counts t1 none rm hrm
  cases rm with
  | none => simp [runCount] at hc; omega
  | some j => simp [runCount] at hc; omega

/-- C4 (witness): a concrete reachable state — submit task 0, submit task 1,
start and finish task 0 — satisfies both conclusions. -/
theorem queue_fifo_serial_witness :
    startedIds [QEvent.start 0, QEvent.finish 0] ++ [1] = [0, 1] ∧
    (∀ t1 t2, ([QEvent.start 0, QEvent.finish 0] : List QEvent) = t1 ++ t2 →
       countStart t1 ≤ countFinish t1 + 1) :=
  queue_fifo_serial ⟨[1], true, none, [QEvent.start 0, QEvent.finish 0], [0, 1]⟩
    (Relation.ReflTransGen.tail
      (Relation.ReflTransGen.tail
        (Relation.ReflTransGen.tail
          (Relation.ReflTransGen.tail Relation.ReflTransGen.refl
            (QStep.submit qInit 0))
          (QStep.submit ⟨[0], true, none, [], [0]⟩ 1))
        (QStep.startTask ⟨[0, 1], true, none, [], [0, 1]⟩ 0 [1] rfl rfl rfl))
      (QStep.finishTask ⟨[1], true, some 0, [QEvent.start 0], [0, 1]⟩ 0 rfl))

/-- A queued unit of work: its id and whether its callback throws/rejects. -/
structure QueuedTask where
  id : Nat
  fails : Bool
  deriving DecidableEq, Repr

/-- The caller's `requestFn()` outcome. -/
def runCallback (t : QueuedTask) : Except String Nat :=
  if t.fails then Except.error "task failed" else Except.ok t.id

/-- The closure pushed by `executeRequest` (lines 84-94): `try { ... resolve }
catch { reject }` — the outer `Except` is whether the closure itself throws
(it never does: the catch converts a callback error into a rejection delivered
to the caller, the inner `Except`). -/
def queuedClosure (t : QueuedTask) : Except String (Except String Nat) :=
  match runCallback t with
  | Except.ok v => Except.ok (Except.ok v)
  | Except.error e => Except.ok (Except.error e)

/-- The drain loop of `processQueue` (lines 110-118): run each queued closure
in order; a closure that threw would abort the whole loop (propagate the outer
error), otherwise its settlement is recorded and the loop continues. -/
def processQueue : List QueuedTask → Except String (List (Nat × Except String Nat))
  | [] => Except.ok []
  | t :: rest =>
    match queuedClosure t with
    | Except.error e => Except.error e
    | Except.ok r =>
      match processQueue rest with
      | Except.error e => Except.error e
      | Except.ok rs => Except.ok ((t.id, r) :: rs)

/-- C6 (confirmed): the drain loop never aborts: every submitted task — also
every task submitted after a failing one — is executed in submission order,
and a task whose callback throws has exactly that error delivered to its own
caller (its promise rejects) while successful tasks resolve with their result. -/
theorem queue_error_isolation (tasks : List QueuedTask) :
    processQueue tasks = Except.ok (tasks.map fun t =>
      (t.id, if t.fails then Except.error "task failed" else Except.ok t.id)) := by
  induction tasks with
  | nil => rfl
  | cons t rest ih =>
    by_cases hf : t.fails <;>
      simp [processQueue, queuedClosure, runCallback, hf, ih]

/-! # Project service composition (ProjectService, src/services/project.ts) -/

/-- `ProjectService.getProjectWithHealth` (project.ts lines 46-56):
`Promise.all` of the project fetch and the health computation, the latter with
`.catch(() => null)`; the result spreads the project and sets
`health: health || undefined`.  The whole call fails only if the project fetch
itself fails. -/
def getProjectWithHealth {α β : Type} (projectResult : Except String α)
    (healthResult : Except String β) : Except String (α × Option β) :=
  match projectResult with
  | Except.error e => Except.error e
  | Except.ok p => Except.ok (p, healthResult.toOption)

/-- C7 (confirmed): when the project fetch succeeds, `getProjectWithHealth`
always succeeds — the health sub-computation can never fail the composition —
and when the health computation fails with any error, the result is the base
project with the health field absent. -/
theorem getProjectWithHealth_degrades {α β : Type} (p : α) :
    (∀ hr : Except String β,
       getProjectWithHealth (Except.ok p) hr = Except.ok (p, hr.toOption)) ∧
    (∀ e : String,
       getProjectWithHealth (Except.ok p) (Except.error e : Except String β)
         = Except.ok (p, none)) :=
  ⟨fun _ => rfl, fun _ => rfl⟩

/-! # Refresh route (api/routes, POST /:owner/:repo/refresh) -/

/-- Key builder `CacheService.getRepoKey`. -/
def repoKey (owner repo : String) : String := "repo:" ++ owner ++ "/" ++ repo

/-- Key builder `CacheService.getMetricsKey`. -/
def metricsKey (owner repo : String) : String := "metrics:" ++ owner ++ "/" ++ repo

/-- Key builder `CacheService.getHealthKey`. -/
def healthKey (owner repo : String) : String := "health:" ++ owner ++ "/" ++ repo

/-- `ProjectService.getProjectHealth` (project.ts lines 27-44): return the
cached health when present; otherwise compute it (the upstream metrics fetch
plus `calculateHealth`, whose result is the parameter `fresh`) and cache it
with the default TTL. -/
def getProjectHealthOp {α : Type} (cfg : CacheConfig) (c : CacheState α)
    (now : Nat) (owner repo : String) (fresh : α) : α × CacheState α :=
  let p := cacheGet c now (healthKey owner repo)
  match p.1 with
  | some cached => (cached, p.2)
  | none => (fresh, cacheSet cfg p.2 now (healthKey owner repo) fresh none)

/-- The refresh route handler (routes, lines 443-467): delete the `repo:`,
`metrics:` and `health:` keys for the pair, then run `getProjectHealth`. -/
def refreshRoute {α : Type} (cfg : CacheConfig) (c : CacheState α) (now : Nat)
    (owner repo : String) (fresh : α) : α × CacheState α :=
  let c1 := cacheDelete (repoKey owner repo) c
  let c2 := cacheDelete (metricsKey owner repo) c1
  let c3 := cacheDelete (healthKey owner repo) c2
  getProjectHealthOp cfg c3 now owner repo fresh

theorem lookupKey_eq_none_of_not_mem {α : Type} (k : String)
    (l : List (String × CacheItem α)) (h : k ∉ l.map Prod.fst) :
    lookupKey k l = none := by
  induction l with
  | nil => rfl
  | cons e rest ih =>
    simp only [List.map_cons, List.mem_cons] at h
    push_neg at h
    have hne : ¬ (e.1 = k) := fun he => h.1 he.symm
    simp [lookupKey, hne, ih h.2]

theorem lookupKey_deleteEntry_self {α : Type} (k : String)
    (l : List (String × CacheItem α)) (hnd : (l.map Prod.fst).Nodup) :
    lookupKey k (deleteEntry k l) = none := by
  induction l with
  | nil => rfl
  | cons e rest ih =>
    simp only [List.map_cons, List.nodup_cons] at hnd
    by_cases h : e.1 = k
    · simp only [deleteEntry, if_pos h]
      exact lookupKey_eq_none_of_not_mem k rest (h ▸ hnd.1)
    · simp only [deleteEntry, if_neg h, lookupKey, if_neg h]
      exact ih hnd.2

theorem lookupKey_deleteEntry_ne {α : Type} (k k2 : String) (hne : k ≠ k2)
    (l : List (String × CacheItem α)) :
    lookupKey k (deleteEntry k2 l) = lookupKey k l := by
  induction l with
  | nil => rfl
  | cons e rest ih =>
    by_cases h : e.1 = k2
    · have hek : ¬ (e.1 = k) := fun hk => hne (hk ▸ h.symm ▸ rfl)
      simp [deleteEntry, h, lookupKey, hek, Ne.symm hne]
    · by_cases hk : e.1 = k
      · simp [deleteEntry, h, lookupKey, hk, hne]
      · simp [deleteEntry, h, lookupKey, hk, ih]

theorem nodup_deleteEntry {α : Type} (k : String)
    (l : List (String × CacheItem α)) (hnd : (l.map Prod.fst).Nodup) :
    ((deleteEntry k l).map Prod.fst).Nodup :=
  hnd.sublist ((deleteEntry_sublist k l).map Prod.fst)

theorem repoKey_ne_metricsKey (o r : String) : repoKey o r ≠ metricsKey o r := by
  intro h
  have hlen := congrArg String.length h
  simp only [repoKey, metricsKey, String.length_append] at hlen
  have h1 : "repo:".length = 5 := rfl
  have h2 : "metrics:".length = 8 := rfl
  rw [h1, h2] at hlen
  omega

theorem repoKey_ne_healthKey (o r : String) : repoKey o r ≠ healthKey o r := by
  intro h
  have hlen := congrArg String.length h
  simp only [repoKey, healthKey, String.length_append] at hlen
  have h1 : "repo:".length = 5 := rfl
  have h2 : "health:".length = 7 := rfl
  rw [h1, h2] at hlen
  omega

theorem metricsKey_ne_healthKey (o r : String) : metricsKey o r ≠ healthKey o r := by
  intro h
  have hlen := congrArg String.length h
  simp only [metricsKey, healthKey, String.length_append] at hlen
  have h1 : "metrics:".length = 8 := rfl
  have h2 : "health:".length = 7 := rfl
  rw [h1, h2] at hlen
  omega

/-- C5 (confirmed): on a well-formed cache (distinct keys, as a JS `Map`
guarantees), the refresh handler deletes the `repo:`, `metrics:` and `health:`
entries of the owner/repo pair — after the delete phase none of the three keys
resolves any more, so no pre-refresh cached value can be returned — and the
value the refresh hands back is the freshly recomputed health, not a cached
one. -/
theorem refresh_forces_fresh {α : Type} (cfg : CacheConfig) (c : CacheState α)
    (now : Nat) (owner repo : String) (fresh : α)
    (hnd : (c.entries.map Prod.fst).Nodup) :
    (refreshRoute cfg c now owner repo fresh).1 = fresh ∧
    lookupKey (repoKey owner repo)
      (cacheDelete (healthKey owner repo) (cacheDelete (metricsKey owner repo)
        (cacheDelete (repoKey owner repo) c))).entries = none ∧
    lookupKey (metricsKey owner repo)
      (cacheDelete (healthKey owner repo) (cacheDelete (metricsKey owner repo)
        (cacheDelete (repoKey owner repo) c))).entries = none ∧
    lookupKey (healthKey owner repo)
      (cacheDelete (healthKey owner repo) (cacheDelete (metricsKey owner repo)
        (cacheDelete (repoKey owner repo) c))).entries = none := by
  have hnd1 : ((deleteEntry (repoKey owner repo) c.entries).map Prod.fst).Nodup :=
    nodup_deleteEntry _ _ hnd
  have hnd2 : ((deleteEntry (metricsKey owner repo)
      (deleteEntry (repoKey owner repo) c.entries)).map Prod.fst).Nodup :=
    nodup_deleteEntry _ _ hnd1
  have hrepo : lookupKey (repoKey owner repo)
      (deleteEntry (healthKey owner repo) (deleteEntry (metricsKey owner repo)
        (deleteEntry (repoKey owner repo) c.entries))) = none := by
    rw [lookupKey_deleteEntry_ne _ _ (repoKey_ne_healthKey owner repo),
      lookupKey_deleteEntry_ne _ _ (repoKey_ne_metricsKey owner repo)]
    exact lookupKey_deleteEntry_self _ _ hnd
  have hmetrics : lookupKey (metricsKey owner repo)
      (deleteEntry (healthKey owner repo) (deleteEntry (metricsKey owner repo)
        (deleteEntry (repoKey owner repo) c.entries))) = none := by
    rw [lookupKey_deleteEntry_ne _ _ (metricsKey_ne_healthKey owner repo)]
    exact lookupKey_deleteEntry_self _ _ hnd1
  have hhealth : lookupKey (healthKey owner repo)
      (deleteEntry (healthKey owner repo) (deleteEntry (metricsKey owner repo)
        (deleteEntry (repoKey owner repo) c.entries))) = none := by
    exact lookupKey_deleteEntry_self _ _ hnd2
  refine ⟨?_, hrepo, hmetrics, hhealth⟩
  show (getProjectHealthOp cfg
    (cacheDelete (healthKey owner repo) (cacheDelete (metricsKey owner repo)
      (cacheDelete (repoKey owner repo) c))) now owner repo fresh).1 = fresh
  simp [getProjectHealthOp, cacheGet, cacheDelete, hhealth]

/-- C5 (witness): a cache holding stale entries for all three keys of
`("a", "b")`: the refresh returns the fresh value 99, and none of the three
keys resolves after the delete phase. -/
theorem refresh_forces_fresh_witness :
    (refreshRoute ⟨1000, 300000⟩
      (⟨[(repoKey "a" "b", ⟨1, 0, 100⟩), (metricsKey "a" "b", ⟨2, 0, 100⟩),
         (healthKey "a" "b", ⟨3, 0, 100⟩)]⟩ : CacheState Nat)
      7 "a" "b" 99).1 = 99 ∧
    lookupKey (repoKey "a" "b")
      (cacheDelete (healthKey "a" "b") (cacheDelete (metricsKey "a" "b")
        (cacheDelete (repoKey "a" "b")
          (⟨[(repoKey "a" "b", ⟨1, 0, 100⟩), (metricsKey "a" "b", ⟨2, 0, 100⟩),
             (healthKey "a" "b", ⟨3, 0, 100⟩)]⟩ : CacheState Nat)))).entries = none ∧
    lookupKey (metricsKey "a" "b")
      (cacheDelete (healthKey "a" "b") (cacheDelete (metricsKey "a" "b")
        (cacheDelete (repoKey "a" "b")
          (⟨[(repoKey "a" "b", ⟨1, 0, 100⟩), (metricsKey "a" "b", ⟨2, 0, 100⟩),
             (healthKey "a" "b", ⟨3, 0, 100⟩)]⟩ : CacheState Nat)))).entries = none ∧
    lookupKey (healthKey "a" "b")
      (cacheDelete (healthKey "a" "b") (cacheDelete (metricsKey "a" "b")
        (cacheDelete (repoKey "a" "b")
          (⟨[(repoKey "a" "b", ⟨1, 0, 100⟩), (metricsKey "a" "b", ⟨2, 0, 100⟩),
             (healthKey "a" "b", ⟨3, 0, 100⟩)]⟩ : CacheState Nat)))).entries = none :=
  refresh_forces_fresh ⟨1000, 300000⟩
    ⟨[(repoKey "a" "b", ⟨1, 0, 100⟩), (metricsKey "a" "b", ⟨2, 0, 100⟩),
      (healthKey "a" "b", ⟨3, 0, 100⟩)]⟩ 7 "a" "b" 99 (by decide)

/-! # Scoring engine

Modelled from the spec: `HealthCalculatorService` (health-calculator.ts) is
imported by src/services/project.ts but its file is not in the repository
snapshot; the data shapes below follow src/models/project.ts and the scoring
algorithm follows spec section 4.6 (tiered thresholds per dimension, weights
0.30/0.25/0.25/0.20, documentation credits 35/25/20/10/10, recommendations for
every dimension under 60).  Section 4.6 requires the function to be pure with
no wall-clock dependence, so the calculated-at stamp is taken from the metrics
value itself, never from the clock at the call. -/

/-- `CommitActivity` (models/project.ts). -/
structure CommitActivity where
  week : Nat
  total : Nat
  days : List Nat
  deriving DecidableEq, Repr

/-- `Contributor` (models/project.ts). -/
structure Contributor where
  login : String
  contributions : Nat
  kind : String
  deriving DecidableEq, Repr

/-- `IssueStats` (models/project.ts); `openCount` renders the source field
`open`, which is a Lean keyword; average times are days, possibly fractional. -/
structure IssueStats where
  total : Nat
  openCount : Nat
  closed : Nat
  averageCloseTime : ℚ
  deriving DecidableEq, Repr

/-- `PullRequestStats` (models/project.ts). -/
structure PullRequestStats where
  total : Nat
  openCount : Nat
  closed : Nat
  merged : Nat
  averageMergeTime : ℚ
  deriving DecidableEq, Repr

/-- `DocumentationCheck` (models/project.ts). -/
structure DocumentationCheck where
  hasReadme : Bool
  hasLicense : Bool
  hasContributing : Bool
  hasChangelog : Bool
  hasCodeOfConduct : Bool
  deriving DecidableEq, Repr

/-- `ProjectMetrics` (models/project.ts). -/
structure ProjectMetrics where
  owner : String
  repository : String
  commitActivity : List CommitActivity
  contributors : List Contributor
  issueStats : IssueStats
  pullRequestStats : PullRequestStats
  documentation : DocumentationCheck
  measuredAt : Nat
  deriving DecidableEq, Repr

/-- The four per-dimension scores of `ProjectHealth` (models/project.ts). -/
structure HealthScores where
  activity : Nat
  community : Nat
  maintenance : Nat
  documentation : Nat
  deriving DecidableEq, Repr

/-- `ProjectHealth` (models/project.ts lines 69-81). -/
structure ProjectHealth where
  owner : String
  repository : String
  overallScore : Nat
  scores : HealthScores
  recommendations : List String
  calculatedAt : Nat
  deriving DecidableEq, Repr

/-- Modelled from the spec (4.6): commit volume over the last ~12 weeks. -/
def recentCommitTotal (m : ProjectMetrics) : Nat :=
  ((m.commitActivity.reverse.take 12).map (fun w => w.total)).sum

/-- Modelled from the spec (4.6): tiered, capped credit for commit volume. -/
def commitPoints (n : Nat) : Nat :=
  if 100 ≤ n then 40 else if 50 ≤ n then 30 else if 10 ≤ n then 20
  else if 1 ≤ n then 10 else 0

/-- Modelled from the spec (4.6): tiered credit for a mean close/merge time in
days (faster is better). -/
def timelinessPoints (d : ℚ) : Nat :=
  if d ≤ 7 then 30 else if d ≤ 30 then 20 else if d ≤ 90 then 10 else 0

/-- Modelled from the spec (4.6): activity dimension, capped at 100. -/
def activityScore (m : ProjectMetrics) : Nat :=
  min 100 (commitPoints (recentCommitTotal m)
    + timelinessPoints m.issueStats.averageCloseTime
    + timelinessPoints m.pullRequestStats.averageMergeTime)

/-- Modelled from the spec (4.6): tiered credit for the contributor count. -/
def contributorPoints (n : Nat) : Nat :=
  if 50 ≤ n then 60 else if 20 ≤ n then 50 else if 5 ≤ n then 35
  else if 1 ≤ n then 20 else 0

/-- Modelled from the spec (4.6): the top contributor's share of all
contributions (1 when there are none). -/
def topShare (m : ProjectMetrics) : ℚ :=
  let total := (m.contributors.map (fun c => c.contributions)).sum
  let top := (m.contributors.map (fun c => c.contributions)).foldr max 0
  if total = 0 then 1 else (top : ℚ) / (total : ℚ)

/-- Modelled from the spec (4.6): lower concentration scores higher. -/
def concentrationPoints (share : ℚ) : Nat :=
  if share ≤ 1/4 then 40 else if share ≤ 1/2 then 25
  else if share ≤ 3/4 then 10 else 0

/-- Modelled from the spec (4.6): community dimension, capped at 100. -/
def communityScore (m : ProjectMetrics) : Nat :=
  min 100 (contributorPoints m.contributors.length
    + concentrationPoints (topShare m))

/-- Modelled from the spec (4.6): tiered 0..50 credit for a closed/merged
ratio (zero totals score the floor tier). -/
def ratioPoints (num den : Nat) : Nat :=
  if den = 0 then 0
  else if (4 : ℚ) / 5 ≤ (num : ℚ) / (den : ℚ) then 50
  else if (3 : ℚ) / 5 ≤ (num : ℚ) / (den : ℚ) then 35
  else if (2 : ℚ) / 5 ≤ (num : ℚ) / (den : ℚ) then 20
  else 10

/-- Modelled from the spec (4.6): maintenance dimension, a 50/50 split of the
issue-close and PR-merge ratios. -/
def maintenanceScore (m : ProjectMetrics) : Nat :=
  min 100 (ratioPoints m.issueStats.closed m.issueStats.total
    + ratioPoints m.pullRequestStats.merged m.pullRequestStats.total)

/-- Modelled from the spec (4.6): flat additive documentation credit,
35/25/20/10/10. -/
def documentationScore (d : DocumentationCheck) : Nat :=
  (if d.hasReadme then 35 else 0) + (if d.hasLicense then 25 else 0)
  + (if d.hasContributing then 20 else 0) + (if d.hasChangelog then 10 else 0)
  + (if d.hasCodeOfConduct then 10 else 0)

/-- Modelled from the spec (4.6): overall = weighted sum 0.30/0.25/0.25/0.20,
rounded to the nearest integer. -/
def weightedOverall (a c mt d : Nat) : Nat :=
  (round ((30 * (a : ℚ) + 25 * (c : ℚ) + 25 * (mt : ℚ) + 20 * (d : ℚ)) / 100)).toNat

/-- Modelled from the spec (4.6): one advisory string per dimension scoring
below 60, naming the missing documentation artifacts for the documentation
dimension. -/
def recommendationsFor (m : ProjectMetrics) (a c mt d : Nat) : List String :=
  (if a < 60 then
     ["Increase recent commit activity and close issues and pull requests faster"]
   else []) ++
  (if c < 60 then
     ["Grow the contributor base and distribute ownership more evenly"]
   else []) ++
  (if mt < 60 then
     ["Close a larger share of issues and merge a larger share of pull requests"]
   else []) ++
  (if d < 60 then
     (if m.documentation.hasReadme then [] else ["Add a README file"]) ++
     (if m.documentation.hasLicense then [] else ["Add a LICENSE file"]) ++
     (if m.documentation.hasContributing then [] else ["Add a CONTRIBUTING guide"]) ++
     (if m.documentation.hasChangelog then [] else ["Add a CHANGELOG file"]) ++
     (if m.documentation.hasCodeOfConduct then [] else ["Add a CODE OF CONDUCT file"])
   else [])

/-- Modelled from the spec (4.6): `calculateHealth`.  It receives the clock
value available to the implementation (`Date.now()` at the call) but, per the
spec's reproducibility requirement, the result may not depend on it. -/
def calculateHealth (m : ProjectMetrics) (_nowAtCall : Nat) : ProjectHealth :=
  let a := activityScore m
  let c := communityScore m
  let mt := maintenanceScore m
  let d := documentationScore m.documentation
  { owner := m.owner
    repository := m.repository
    overallScore := weightedOverall a c mt d
    scores := ⟨a, c, mt, d⟩
    recommendations := recommendationsFor m a c mt d
    calculatedAt := m.measuredAt }

/-- C9 (confirmed): the scoring engine is deterministic — two calls to
`calculateHealth` on the same `ProjectMetrics` value, at arbitrary (and
arbitrarily different) wall-clock instants, produce identical `ProjectHealth`
values: the result depends only on the metrics input. -/
theorem calculateHealth_deterministic (m : ProjectMetrics) (t1 t2 : Nat) :
    calculateHealth m t1 = calculateHealth m t2 := rfl
